import Mathlib

/-!
Verification of the county line detection core of the QSO-PARTY-ANALYSIS
repository against its natural-language specification.

The detector lives in `src/scripts/_county_line_analyzer.py`
(class `CountyLineDetector`) with a near-identical copy in
`src/scripts/county_line_periods.py` (class `CountyLinePeriodGenerator`);
the two differ only in how the emitted period record is assembled
(the generator sorts the county pair into a `counties` list, the analyzer
keeps the pair in discovery order as `county_a`/`county_b`).

The embedding below models the algorithm faithfully:
* `findAlternatingPair` embeds `_find_alternating_pair` (identical in both
  files);
* `traceGo`/`tracePattern` embed `_trace_pattern` (identical in both files);
  the Python `for i in range(start_idx, len(qsos))` loop is rendered as a
  structural recursion over the suffix `qsos.drop start_idx` carrying the
  running index `i`;
* `detectPeriodFrom` embeds `CountyLineDetector._detect_period_from`,
  `genDetectPeriodFrom` embeds `CountyLinePeriodGenerator._detect_period_from`;
* `findFromFuel`/`find_county_line_periods` embed the `while` driving loop of
  `find_county_line_periods`; the loop is rendered with an explicit fuel
  parameter, with `qsos.length` fuel at the top level, and the lemma
  `findFromFuel_fuel_stable` shows the result is independent of any
  sufficiently large fuel, i.e. the embedded loop agrees with the source's
  unbounded `while` loop, which terminates because the cursor strictly
  increases.

Only the `timestamp` and `tx_county` fields of a QSO record are ever read by
the detection algorithm, so the record model carries exactly those two.
-/

namespace QsoParty

/-- A QSO record as consumed by the detector.  The source dataclasses carry
further fields (`freq`, `mode`, call signs, `qso_id`) but the detection
algorithm reads only the transmit county and, when assembling a period, the
timestamp. -/
structure QSORecord where
  timestamp : Int
  tx_county : String
deriving Repr, DecidableEq, Inhabited

/-- Default record used to express Python's (always in-bounds) list indexing
through `List.getD`. -/
def dummyRecord : QSORecord := ⟨0, ""⟩

/-- Detector configuration: `CountyLineDetector.__init__` parameters
`min_alternations` (spec: `minimum_alternations`) and `max_consecutive_same`
(spec: `max_consecutive_noise`). -/
structure Config where
  min_alternations : Nat
  max_consecutive_same : Nat
deriving Repr, DecidableEq

/-- The defaults used throughout the repository: `min_alternations = 3`,
`max_consecutive_same = 2`. -/
def defaultConfig : Config := ⟨3, 2⟩

/-- Embeds the `CountyLinePeriod` dataclass of `_county_line_analyzer.py`. -/
structure CountyLinePeriod where
  start_time : Int
  end_time : Int
  county_a : String
  county_b : String
  start_idx : Nat
  end_idx : Nat
  qso_count : Nat
  alternations : Nat
deriving Repr, DecidableEq

/-- Lexicographic (code-point) comparison of county symbols, as used by
Python's `sorted` on strings.  This is the list order on the underlying
character data; it agrees with Mathlib's `<` on `String` by
`String.lt_iff_toList_lt`, and unlike the latter it evaluates by kernel
reduction. -/
def strLt (x y : String) : Prop := x.data < y.data

instance (x y : String) : Decidable (strLt x y) :=
  inferInstanceAs (Decidable (x.data < y.data))

/-- Embeds the `CountyLinePeriod` dataclass of `county_line_periods.py`,
whose `counties` field is `sorted([county_a, county_b])`. -/
structure GenCountyLinePeriod where
  start_time : Int
  end_time : Int
  counties : List String
  qso_count : Nat
  alternations : Nat
  start_idx : Nat
  end_idx : Nat
deriving Repr, DecidableEq

/-- Embeds `_find_alternating_pair` (identical in both source files): scan
forward; at each index `i` with `qsos[i].tx_county ≠ qsos[i+1].tx_county` and
`qsos[i+2].tx_county = qsos[i].tx_county` return that pair, else continue.
Fewer than three records yield `none`. -/
def findAlternatingPair : List QSORecord → Option (String × String)
  | q0 :: q1 :: q2 :: rest =>
    if q0.tx_county = q1.tx_county then
      findAlternatingPair (q1 :: q2 :: rest)
    else if q2.tx_county = q0.tx_county then
      some (q0.tx_county, q1.tx_county)
    else
      findAlternatingPair (q1 :: q2 :: rest)
  | _ => none

/-- Embeds the `for i in range(start_idx, len(qsos))` loop body of
`_trace_pattern` (identical in both source files).  The list argument is the
suffix of the record list from the current index `i`; the accumulators are the
source's `expected`, `alternations`, `consecutive_same` and `last_valid_idx`
variables. -/
def traceGo (cfg : Config) (county_a county_b : String) :
    List QSORecord → Nat → String → Nat → Nat → Nat → Nat × Nat
  | [], _, _, alternations, _, last_valid_idx => (last_valid_idx, alternations)
  | q :: rest, i, expected, alternations, consecutive_same, last_valid_idx =>
    if q.tx_county ≠ county_a ∧ q.tx_county ≠ county_b then
      (last_valid_idx, alternations)
    else if q.tx_county = expected then
      traceGo cfg county_a county_b rest (i + 1)
        (if expected = county_a then county_b else county_a)
        (alternations + 1) 0 i
    else if consecutive_same + 1 > cfg.max_consecutive_same then
      (i - (consecutive_same + 1), alternations)
    else
      traceGo cfg county_a county_b rest (i + 1) expected alternations
        (consecutive_same + 1) i

/-- Embeds `_trace_pattern` (identical in both source files): seed `expected`
with the county at `start_idx`, bail out with `(start_idx, 0)` if it is not a
pair member, else run the loop from `start_idx`. -/
def tracePattern (cfg : Config) (qsos : List QSORecord) (start_idx : Nat)
    (county_a county_b : String) : Nat × Nat :=
  let expected := (qsos.getD start_idx dummyRecord).tx_county
  if expected ≠ county_a ∧ expected ≠ county_b then
    (start_idx, 0)
  else
    traceGo cfg county_a county_b (qsos.drop start_idx) start_idx expected 0 0
      start_idx

/-- Embeds `CountyLineDetector._detect_period_from`: guard, 10-record
lookahead window `qsos[start_idx:min(start_idx+10, len(qsos))]` (the source's
`scan_window` local is inlined), pair search, trace, threshold check, period
assembly.  The source binds the trace result once as `end_idx, alternations`;
here the pure call `tracePattern ...` is written at each use site. -/
def detectPeriodFrom (cfg : Config) (qsos : List QSORecord) (start_idx : Nat) :
    Option CountyLinePeriod :=
  if start_idx + cfg.min_alternations ≥ qsos.length then
    none
  else
    match findAlternatingPair
        ((qsos.take (min (start_idx + 10) qsos.length)).drop start_idx) with
    | none => none
    | some (county_a, county_b) =>
      if (tracePattern cfg qsos start_idx county_a county_b).2 ≥
          cfg.min_alternations then
        some { start_time := (qsos.getD start_idx dummyRecord).timestamp
               end_time :=
                 (qsos.getD (tracePattern cfg qsos start_idx county_a
                   county_b).1 dummyRecord).timestamp
               county_a := county_a
               county_b := county_b
               start_idx := start_idx
               end_idx := (tracePattern cfg qsos start_idx county_a county_b).1
               qso_count :=
                 (tracePattern cfg qsos start_idx county_a county_b).1 -
                   start_idx + 1
               alternations :=
                 (tracePattern cfg qsos start_idx county_a county_b).2 }
      else
        none

/-- Embeds `CountyLinePeriodGenerator._detect_period_from`: identical to
`detectPeriodFrom` except the period record carries
`counties = sorted([county_a, county_b])`. -/
def genDetectPeriodFrom (cfg : Config) (qsos : List QSORecord)
    (start_idx : Nat) : Option GenCountyLinePeriod :=
  if start_idx + cfg.min_alternations ≥ qsos.length then
    none
  else
    match findAlternatingPair
        ((qsos.take (min (start_idx + 10) qsos.length)).drop start_idx) with
    | none => none
    | some (county_a, county_b) =>
      if (tracePattern cfg qsos start_idx county_a county_b).2 ≥
          cfg.min_alternations then
        some { start_time := (qsos.getD start_idx dummyRecord).timestamp
               end_time :=
                 (qsos.getD (tracePattern cfg qsos start_idx county_a
                   county_b).1 dummyRecord).timestamp
               counties := if strLt county_b county_a then
                             [county_b, county_a]
                           else [county_a, county_b]
               qso_count :=
                 (tracePattern cfg qsos start_idx county_a county_b).1 -
                   start_idx + 1
               alternations :=
                 (tracePattern cfg qsos start_idx county_a county_b).2
               start_idx := start_idx
               end_idx :=
                 (tracePattern cfg qsos start_idx county_a county_b).1 }
      else
        none

/-- Embeds the `while i < len(qsos) - self.min_alternations` driving loop of
`find_county_line_periods`, with explicit fuel.  The cursor jumps to
`end_idx + 1` after an emitted period and advances by one otherwise; the fuel
only bounds the iteration count and `findFromFuel_fuel_stable` below shows any
fuel of at least `qsos.length` gives the loop's limit. -/
def findFromFuel (cfg : Config) (qsos : List QSORecord) :
    Nat → Nat → List CountyLinePeriod
  | 0, _ => []
  | fuel + 1, i =>
    if i < qsos.length - cfg.min_alternations then
      match detectPeriodFrom cfg qsos i with
      | some p => p :: findFromFuel cfg qsos fuel (p.end_idx + 1)
      | none => findFromFuel cfg qsos fuel (i + 1)
    else
      []

/-- Embeds `CountyLineDetector.find_county_line_periods`. -/
def find_county_line_periods (cfg : Config) (qsos : List QSORecord) :
    List CountyLinePeriod :=
  if qsos.length < cfg.min_alternations + 1 then []
  else findFromFuel cfg qsos qsos.length 0

/-- Same driving loop for the generator variant
(`CountyLinePeriodGenerator.find_county_line_periods`). -/
def genFindFromFuel (cfg : Config) (qsos : List QSORecord) :
    Nat → Nat → List GenCountyLinePeriod
  | 0, _ => []
  | fuel + 1, i =>
    if i < qsos.length - cfg.min_alternations then
      match genDetectPeriodFrom cfg qsos i with
      | some p => p :: genFindFromFuel cfg qsos fuel (p.end_idx + 1)
      | none => genFindFromFuel cfg qsos fuel (i + 1)
    else
      []

/-- Embeds `CountyLinePeriodGenerator.find_county_line_periods`. -/
def gen_find_county_line_periods (cfg : Config) (qsos : List QSORecord) :
    List GenCountyLinePeriod :=
  if qsos.length < cfg.min_alternations + 1 then []
  else genFindFromFuel cfg qsos qsos.length 0

/-! Concrete input sequences used by the scenario claims, their
counterexamples and the witnesses.  Timestamps are arbitrary instants;
`ex4` deliberately carries strictly decreasing timestamps. -/

/-- Scenario 1 input: tx_county sequence `[A,B,A,B,A]`, ascending timestamps. -/
def ex1 : List QSORecord :=
  [⟨1, "A"⟩, ⟨2, "B"⟩, ⟨3, "A"⟩, ⟨4, "B"⟩, ⟨5, "A"⟩]

/-- Scenario 2 input: tx_county sequence `[A,B,A,C,A,B,A]`. -/
def ex2 : List QSORecord :=
  [⟨1, "A"⟩, ⟨2, "B"⟩, ⟨3, "A"⟩, ⟨4, "C"⟩, ⟨5, "A"⟩, ⟨6, "B"⟩, ⟨7, "A"⟩]

/-- Same counties as `ex1` but with strictly decreasing timestamps: an input
violating the ascending-timestamp input contract. -/
def ex4 : List QSORecord :=
  [⟨5, "A"⟩, ⟨4, "B"⟩, ⟨3, "A"⟩, ⟨2, "B"⟩, ⟨1, "A"⟩]

/-- A clean alternation that starts on the lexicographically larger county:
tx_county sequence `[B,A,B,A,B]`. -/
def exB : List QSORecord :=
  [⟨1, "B"⟩, ⟨2, "A"⟩, ⟨3, "B"⟩, ⟨4, "A"⟩, ⟨5, "B"⟩]

/-- Monotonicity counterexample input: tx_county sequence `[A,B,A,A,A,C,A]`. -/
def ex9 : List QSORecord :=
  [⟨1, "A"⟩, ⟨2, "B"⟩, ⟨3, "A"⟩, ⟨4, "A"⟩, ⟨5, "A"⟩, ⟨6, "C"⟩, ⟨7, "A"⟩]

/-! Invariants of the trace loop.  Throughout, `s` is the start index of the
trace; the loop state reachable after the first (necessarily matching) record
satisfies `lv + 1 = i`, `s + cs < i` and `alt ≤ i - cs - s`. -/

/-- Loop invariant of `traceGo`: from any state reachable after the first
matched record, the returned `last_valid_idx` stays in `[s, i + l.length)` and
the returned alternation count is at most the length of the span it ends. -/
lemma traceGo_bounds (cfg : Config) (a b : String) (s : Nat) :
    ∀ (l : List QSORecord) (i : Nat) (exp : String) (alt cs lv : Nat),
      s ≤ lv → lv + 1 = i → s + cs < i → alt ≤ i - cs - s →
      s ≤ (traceGo cfg a b l i exp alt cs lv).1 ∧
        (traceGo cfg a b l i exp alt cs lv).1 < i + l.length ∧
        (traceGo cfg a b l i exp alt cs lv).2 ≤
          (traceGo cfg a b l i exp alt cs lv).1 + 1 - s := by
  intro l
  induction l with
  | nil =>
    intro i exp alt cs lv h1 h2 h3 h4
    simp only [traceGo, List.length_nil]
    omega
  | cons q rest ih =>
    intro i exp alt cs lv h1 h2 h3 h4
    simp only [traceGo, List.length_cons]
    by_cases hc1 : q.tx_county ≠ a ∧ q.tx_county ≠ b
    · rw [if_pos hc1]
      dsimp only
      omega
    · rw [if_neg hc1]
      by_cases hc2 : q.tx_county = exp
      · rw [if_pos hc2]
        obtain ⟨ha, hb, hcnt⟩ :=
          ih (i + 1) (if exp = a then b else a) (alt + 1) 0 i
            (by omega) rfl (by omega) (by omega)
        exact ⟨ha, by omega, hcnt⟩
      · rw [if_neg hc2]
        by_cases hc3 : cs + 1 > cfg.max_consecutive_same
        · rw [if_pos hc3]
          dsimp only
          omega
        · rw [if_neg hc3]
          obtain ⟨ha, hb, hcnt⟩ :=
            ih (i + 1) exp alt (cs + 1) i (by omega) rfl (by omega) (by omega)
          exact ⟨ha, by omega, hcnt⟩

/-- When `start_idx` is in bounds, `tracePattern` returns a last valid index
in `[start_idx, qsos.length)` whose alternation count is bounded by the number
of records in the returned span. -/
lemma tracePattern_bounds (cfg : Config) (qsos : List QSORecord) (s : Nat)
    (a b : String) (hs : s < qsos.length) :
    s ≤ (tracePattern cfg qsos s a b).1 ∧
      (tracePattern cfg qsos s a b).1 < qsos.length ∧
      (tracePattern cfg qsos s a b).2 ≤
        (tracePattern cfg qsos s a b).1 + 1 - s := by
  simp only [tracePattern]
  set exp := (qsos.getD s dummyRecord).tx_county with hexp
  by_cases hguard : exp ≠ a ∧ exp ≠ b
  · rw [if_pos hguard]
    dsimp only
    omega
  · rw [if_neg hguard]
    have hdrop : qsos.drop s = qsos[s] :: qsos.drop (s + 1) :=
      List.drop_eq_getElem_cons hs
    have hget : (qsos.getD s dummyRecord) = qsos[s] := by
      simp [List.getD_eq_getElem?_getD, List.getElem?_eq_getElem hs]
    rw [hdrop]
    simp only [traceGo]
    have hmatch : qsos[s].tx_county = exp := by rw [hexp, hget]
    rw [if_neg (by rw [hmatch]; exact hguard), if_pos hmatch]
    obtain ⟨ha, hb, hcnt⟩ :=
      traceGo_bounds cfg a b s (qsos.drop (s + 1)) (s + 1)
        (if exp = a then b else a) (0 + 1) 0 s le_rfl rfl (by omega) (by omega)
    refine ⟨ha, ?_, hcnt⟩
    have hlen : (qsos.drop (s + 1)).length = qsos.length - (s + 1) :=
      List.length_drop _ _
    omega

/-- The pair returned by the scan of `_find_alternating_pair` consists of two
distinct counties: the scan skips every position with `a == b`. -/
lemma findAlternatingPair_ne :
    ∀ (l : List QSORecord) (a b : String),
      findAlternatingPair l = some (a, b) → a ≠ b := by
  intro l
  induction l with
  | nil => intro a b h; simp [findAlternatingPair] at h
  | cons q0 rest ih =>
    intro a b h
    match rest, h with
    | [], h => simp [findAlternatingPair] at h
    | [q1], h => simp [findAlternatingPair] at h
    | q1 :: q2 :: rest', h =>
      rw [findAlternatingPair] at h
      by_cases h01 : q0.tx_county = q1.tx_county
      · rw [if_pos h01] at h
        exact ih a b h
      · rw [if_neg h01] at h
        by_cases h20 : q2.tx_county = q0.tx_county
        · rw [if_pos h20] at h
          obtain ⟨ha, hb⟩ := Prod.mk.injEq .. ▸ Option.some.injEq .. ▸ h
          subst ha
          subst hb
          exact h01
        · rw [if_neg h20] at h
          exact ih a b h

/-- Every period emitted by `_detect_period_from` starts at the probe index,
ends at an in-bounds index no earlier than the probe, has
`qso_count = end_idx - start_idx + 1`, alternation count at least the
configured minimum and at most `qso_count`, and two distinct counties. -/
lemma detectPeriodFrom_spec (cfg : Config) (qsos : List QSORecord) (s : Nat)
    (p : CountyLinePeriod) (h : detectPeriodFrom cfg qsos s = some p) :
    p.start_idx = s ∧ s ≤ p.end_idx ∧ p.end_idx < qsos.length ∧
      p.qso_count = p.end_idx - p.start_idx + 1 ∧
      p.alternations ≤ p.qso_count ∧
      cfg.min_alternations ≤ p.alternations ∧
      p.county_a ≠ p.county_b := by
  simp only [detectPeriodFrom] at h
  by_cases hg : s + cfg.min_alternations ≥ qsos.length
  · rw [if_pos hg] at h
    exact Option.noConfusion h
  · rw [if_neg hg] at h
    have hs : s < qsos.length := by omega
    cases hpair : findAlternatingPair
        ((qsos.take (min (s + 10) qsos.length)).drop s) with
    | none =>
      rw [hpair] at h
      exact Option.noConfusion h
    | some pr =>
      obtain ⟨a, b⟩ := pr
      rw [hpair] at h
      dsimp only at h
      by_cases hthr :
          (tracePattern cfg qsos s a b).2 ≥ cfg.min_alternations
      · rw [if_pos hthr] at h
        obtain ⟨hlo, hhi, hcnt⟩ := tracePattern_bounds cfg qsos s a b hs
        have hne := findAlternatingPair_ne _ _ _ hpair
        obtain rfl := Option.some.inj h
        refine ⟨rfl, hlo, hhi, rfl, ?_, hthr, hne⟩
        dsimp only
        omega
      · rw [if_neg hthr] at h
        exact Option.noConfusion h

/-- Every period emitted by the generator variant of `_detect_period_from`
starts at the probe index, ends no earlier and in bounds, and carries a
`counties` list of exactly two distinct members in ascending order. -/
lemma genDetectPeriodFrom_spec (cfg : Config) (qsos : List QSORecord)
    (s : Nat) (p : GenCountyLinePeriod)
    (h : genDetectPeriodFrom cfg qsos s = some p) :
    p.start_idx = s ∧ s ≤ p.end_idx ∧ p.end_idx < qsos.length ∧
      ∃ x y, x < y ∧ p.counties = [x, y] := by
  simp only [genDetectPeriodFrom] at h
  by_cases hg : s + cfg.min_alternations ≥ qsos.length
  · rw [if_pos hg] at h
    exact Option.noConfusion h
  · rw [if_neg hg] at h
    have hs : s < qsos.length := by omega
    cases hpair : findAlternatingPair
        ((qsos.take (min (s + 10) qsos.length)).drop s) with
    | none =>
      rw [hpair] at h
      exact Option.noConfusion h
    | some pr =>
      obtain ⟨a, b⟩ := pr
      rw [hpair] at h
      dsimp only at h
      by_cases hthr :
          (tracePattern cfg qsos s a b).2 ≥ cfg.min_alternations
      · rw [if_pos hthr] at h
        obtain ⟨hlo, hhi, _⟩ := tracePattern_bounds cfg qsos s a b hs
        have hne := findAlternatingPair_ne _ _ _ hpair
        obtain rfl := Option.some.inj h
        refine ⟨rfl, hlo, hhi, ?_⟩
        dsimp only
        by_cases hba : strLt b a
        · exact ⟨b, a, String.lt_iff_toList_lt.mpr hba, if_pos hba⟩
        · rcases lt_or_gt_of_ne hne with h | h
          · exact ⟨a, b, h, if_neg hba⟩
          · exact absurd (String.lt_iff_toList_lt.mp h) hba
      · rw [if_neg hthr] at h
        exact Option.noConfusion h

/-- One extra unit of fuel changes nothing once the fuel covers the remaining
loop iterations: the cursor strictly increases each iteration, so from cursor
`i` the `while` loop runs at most `qsos.length - cfg.min_alternations - i`
more times. -/
lemma findFromFuel_succ (cfg : Config) (qsos : List QSORecord) :
    ∀ (fuel i : Nat), qsos.length - cfg.min_alternations ≤ fuel + i →
      findFromFuel cfg qsos (fuel + 1) i = findFromFuel cfg qsos fuel i := by
  intro fuel
  induction fuel with
  | zero =>
    intro i hfi
    rw [findFromFuel, findFromFuel, if_neg (by omega)]
  | succ fuel ih =>
    intro i hfi
    rw [findFromFuel]
    conv_rhs => rw [findFromFuel]
    by_cases hguard : i < qsos.length - cfg.min_alternations
    · rw [if_pos hguard, if_pos hguard]
      cases hdet : detectPeriodFrom cfg qsos i with
      | none =>
        dsimp only
        exact ih (i + 1) (by omega)
      | some p =>
        have hend := (detectPeriodFrom_spec cfg qsos i p hdet).2.1
        dsimp only
        rw [ih (p.end_idx + 1) (by omega)]
    · rw [if_neg hguard, if_neg hguard]

/-- Fuel irrelevance: any two fuels covering the remaining iterations from
cursor `i` produce the same period list, so `find_county_line_periods`
computes the limit of the source's unbounded `while` loop. -/
lemma findFromFuel_fuel_stable (cfg : Config) (qsos : List QSORecord) :
    ∀ (k fuel i : Nat), qsos.length - cfg.min_alternations ≤ fuel + i →
      findFromFuel cfg qsos (fuel + k) i = findFromFuel cfg qsos fuel i := by
  intro k
  induction k with
  | zero => intro fuel i _; rfl
  | succ k ih =>
    intro fuel i hfi
    have h1 : fuel + (k + 1) = (fuel + k) + 1 := by omega
    rw [h1, findFromFuel_succ cfg qsos (fuel + k) i (by omega), ih fuel i hfi]

/-- Every member of the emitted list arises from a successful probe of
`_detect_period_from` at some cursor position at or after the starting
cursor. -/
lemma findFromFuel_mem (cfg : Config) (qsos : List QSORecord) :
    ∀ (fuel i : Nat) (p : CountyLinePeriod),
      p ∈ findFromFuel cfg qsos fuel i →
      ∃ s, i ≤ s ∧ detectPeriodFrom cfg qsos s = some p := by
  intro fuel
  induction fuel with
  | zero =>
    intro i p hp
    rw [findFromFuel] at hp
    exact absurd hp (List.not_mem_nil p)
  | succ fuel ih =>
    intro i p hp
    rw [findFromFuel] at hp
    by_cases hguard : i < qsos.length - cfg.min_alternations
    · rw [if_pos hguard] at hp
      cases hdet : detectPeriodFrom cfg qsos i with
      | none =>
        rw [hdet] at hp
        obtain ⟨s, hs, hdet'⟩ := ih (i + 1) p hp
        exact ⟨s, by omega, hdet'⟩
      | some q =>
        rw [hdet] at hp
        rcases List.mem_cons.mp hp with hpq | hp'
        · exact ⟨i, le_rfl, hpq ▸ hdet⟩
        · obtain ⟨s, hs, hdet'⟩ := ih (q.end_idx + 1) p hp'
          have hqend := (detectPeriodFrom_spec cfg qsos i q hdet).2.1
          exact ⟨s, by omega, hdet'⟩
    · rw [if_neg hguard] at hp
      exact absurd hp (List.not_mem_nil p)

/-- Same membership characterisation for the generator variant of the
driving loop. -/
lemma genFindFromFuel_mem (cfg : Config) (qsos : List QSORecord) :
    ∀ (fuel i : Nat) (p : GenCountyLinePeriod),
      p ∈ genFindFromFuel cfg qsos fuel i →
      ∃ s, i ≤ s ∧ genDetectPeriodFrom cfg qsos s = some p := by
  intro fuel
  induction fuel with
  | zero =>
    intro i p hp
    rw [genFindFromFuel] at hp
    exact absurd hp (List.not_mem_nil p)
  | succ fuel ih =>
    intro i p hp
    rw [genFindFromFuel] at hp
    by_cases hguard : i < qsos.length - cfg.min_alternations
    · rw [if_pos hguard] at hp
      cases hdet : genDetectPeriodFrom cfg qsos i with
      | none =>
        rw [hdet] at hp
        obtain ⟨s, hs, hdet'⟩ := ih (i + 1) p hp
        exact ⟨s, by omega, hdet'⟩
      | some q =>
        rw [hdet] at hp
        rcases List.mem_cons.mp hp with hpq | hp'
        · exact ⟨i, le_rfl, hpq ▸ hdet⟩
        · obtain ⟨s, hs, hdet'⟩ := ih (q.end_idx + 1) p hp'
          have hqend := (genDetectPeriodFrom_spec cfg qsos i q hdet).2.1
          exact ⟨s, by omega, hdet'⟩
    · rw [if_neg hguard] at hp
      exact absurd hp (List.not_mem_nil p)

/-- The list produced by the driving loop is strictly ordered: each emitted
period ends strictly before every later one starts, because the cursor jumps
to `end_idx + 1` after an emission. -/
lemma findFromFuel_pairwise (cfg : Config) (qsos : List QSORecord) :
    ∀ (fuel i : Nat),
      List.Pairwise
        (fun p q => p.start_idx < q.start_idx ∧ p.end_idx < q.start_idx)
        (findFromFuel cfg qsos fuel i) := by
  intro fuel
  induction fuel with
  | zero =>
    intro i
    rw [findFromFuel]
    exact List.Pairwise.nil
  | succ fuel ih =>
    intro i
    rw [findFromFuel]
    by_cases hguard : i < qsos.length - cfg.min_alternations
    · rw [if_pos hguard]
      cases hdet : detectPeriodFrom cfg qsos i with
      | none => exact ih (i + 1)
      | some p =>
        refine List.Pairwise.cons ?_ (ih (p.end_idx + 1))
        intro q hq
        obtain ⟨s, hs, hdet'⟩ :=
          findFromFuel_mem cfg qsos fuel (p.end_idx + 1) q hq
        have hpspec := detectPeriodFrom_spec cfg qsos i p hdet
        have hqspec := detectPeriodFrom_spec cfg qsos s q hdet'
        constructor
        · omega
        · omega
    · rw [if_neg hguard]
      exact List.Pairwise.nil

/-- From any state with `i ≤ lv + cs + 1`, the trace loop never returns an
index before `i - cs - 1` and never loses already-counted alternations. -/
lemma traceGo_ge (cfg : Config) (a b : String) :
    ∀ (l : List QSORecord) (i : Nat) (exp : String) (alt cs lv : Nat),
      i ≤ lv + cs + 1 →
      i ≤ (traceGo cfg a b l i exp alt cs lv).1 + cs + 1 ∧
        alt ≤ (traceGo cfg a b l i exp alt cs lv).2 := by
  intro l
  induction l with
  | nil =>
    intro i exp alt cs lv h
    simp only [traceGo]
    omega
  | cons q rest ih =>
    intro i exp alt cs lv h
    simp only [traceGo]
    by_cases hc1 : q.tx_county ≠ a ∧ q.tx_county ≠ b
    · rw [if_pos hc1]
      dsimp only
      omega
    · rw [if_neg hc1]
      by_cases hc2 : q.tx_county = exp
      · rw [if_pos hc2]
        have := ih (i + 1) (if exp = a then b else a) (alt + 1) 0 i (by omega)
        omega
      · rw [if_neg hc2]
        by_cases hc3 : cs + 1 > cfg.max_consecutive_same
        · rw [if_pos hc3]
          dsimp only
          omega
        · rw [if_neg hc3]
          have := ih (i + 1) exp alt (cs + 1) i (by omega)
          omega

/-- Raising the noise tolerance can only move the trace loop's result
forward: from identical states, the run with the larger
`max_consecutive_same` returns a last valid index and an alternation count at
least as large. -/
lemma traceGo_mono (cfg₁ cfg₂ : Config)
    (hmax : cfg₁.max_consecutive_same ≤ cfg₂.max_consecutive_same)
    (a b : String) :
    ∀ (l : List QSORecord) (i : Nat) (exp : String) (alt cs lv : Nat),
      i ≤ lv + cs + 1 →
      (traceGo cfg₁ a b l i exp alt cs lv).1 ≤
          (traceGo cfg₂ a b l i exp alt cs lv).1 ∧
        (traceGo cfg₁ a b l i exp alt cs lv).2 ≤
          (traceGo cfg₂ a b l i exp alt cs lv).2 := by
  intro l
  induction l with
  | nil =>
    intro i exp alt cs lv h
    simp only [traceGo]
    omega
  | cons q rest ih =>
    intro i exp alt cs lv h
    simp only [traceGo]
    by_cases hc1 : q.tx_county ≠ a ∧ q.tx_county ≠ b
    · rw [if_pos hc1, if_pos hc1]
      dsimp only
      omega
    · rw [if_neg hc1, if_neg hc1]
      by_cases hc2 : q.tx_county = exp
      · rw [if_pos hc2, if_pos hc2]
        exact ih (i + 1) (if exp = a then b else a) (alt + 1) 0 i (by omega)
      · rw [if_neg hc2, if_neg hc2]
        by_cases hc3 : cs + 1 > cfg₁.max_consecutive_same
        · rw [if_pos hc3]
          by_cases hc3' : cs + 1 > cfg₂.max_consecutive_same
          · rw [if_pos hc3']
            dsimp only
            omega
          · rw [if_neg hc3']
            have := traceGo_ge cfg₂ a b rest (i + 1) exp alt (cs + 1) i
              (by omega)
            dsimp only
            omega
        · rw [if_neg hc3, if_neg (show ¬ cs + 1 > cfg₂.max_consecutive_same
            by omega)]
          exact ih (i + 1) exp alt (cs + 1) i (by omega)

/-- Monotonicity of `_trace_pattern` in the noise tolerance: with the same
records, start index and candidate pair, a larger `max_consecutive_same`
never yields an earlier last valid index or a smaller alternation count. -/
lemma tracePattern_mono (cfg₁ cfg₂ : Config)
    (hmax : cfg₁.max_consecutive_same ≤ cfg₂.max_consecutive_same)
    (qsos : List QSORecord) (s : Nat) (a b : String) :
    (tracePattern cfg₁ qsos s a b).1 ≤ (tracePattern cfg₂ qsos s a b).1 ∧
      (tracePattern cfg₁ qsos s a b).2 ≤ (tracePattern cfg₂ qsos s a b).2 := by
  simp only [tracePattern]
  by_cases hguard : (qsos.getD s dummyRecord).tx_county ≠ a ∧
      (qsos.getD s dummyRecord).tx_county ≠ b
  · rw [if_pos hguard, if_pos hguard]
    omega
  · rw [if_neg hguard, if_neg hguard]
    exact traceGo_mono cfg₁ cfg₂ hmax a b (qsos.drop s) s
      (qsos.getD s dummyRecord).tx_county 0 0 s (by omega)

/-! Families of inputs used to exhibit the two trace-termination behaviours:
a perfect alternating prefix, followed either by a run of same-pair noise
longer than the tolerance (rewind) or by a short noise run and an off-pair
record (clean break). -/

/-- Builds records from a county sequence (timestamps are irrelevant to the
trace loop and set to 0). -/
def recsOf (counties : List String) : List QSORecord :=
  counties.map (fun c => ⟨0, c⟩)

/-- The source's expected-county flip: `county_b if expected == county_a else
county_a`. -/
def flipAB (a b e : String) : String := if e = a then b else a

/-- The county sequence produced by following the expected county for `n`
records starting from `e`: `e`, then alternating within the pair. -/
def expRun (a b : String) : String → Nat → List String
  | _, 0 => []
  | e, n + 1 => e :: expRun a b (flipAB a b e) n

/-- The expected county after `n` matched records starting from `e`. -/
def expAfter (a b : String) : String → Nat → String
  | e, 0 => e
  | e, n + 1 => expAfter a b (flipAB a b e) n

lemma flipAB_mem (a b e : String) : flipAB a b e = a ∨ flipAB a b e = b := by
  unfold flipAB
  by_cases h : e = a
  · rw [if_pos h]; exact Or.inr rfl
  · rw [if_neg h]; exact Or.inl rfl

lemma flipAB_ne (a b e : String) (hab : a ≠ b) (he : e = a ∨ e = b) :
    flipAB a b e ≠ e := by
  unfold flipAB
  rcases he with rfl | rfl
  · rw [if_pos rfl]; exact Ne.symm hab
  · rw [if_neg (Ne.symm hab)]; exact hab

lemma expAfter_mem (a b : String) :
    ∀ (n : Nat) (e : String), e = a ∨ e = b →
      expAfter a b e n = a ∨ expAfter a b e n = b := by
  intro n
  induction n with
  | zero => intro e he; exact he
  | succ n ih => intro e _; exact ih (flipAB a b e) (flipAB_mem a b e)

lemma expAfter_succ (a b : String) :
    ∀ (n : Nat) (e : String),
      expAfter a b e (n + 1) = flipAB a b (expAfter a b e n) := by
  intro n
  induction n with
  | zero => intro e; rfl
  | succ n ih => intro e; rw [expAfter, ih (flipAB a b e), expAfter]

/-- A county known to be a pair member never triggers the off-pair break. -/
lemma pair_not_off (a b e : String) (he : e = a ∨ e = b) :
    ¬ (e ≠ a ∧ e ≠ b) := by
  intro h
  rcases he with rfl | rfl
  · exact h.1 rfl
  · exact h.2 rfl

/-- One-step unfolding of the trace loop on a cons cell (used to control
rewriting; `simp` would unfold recursively). -/
lemma traceGo_cons (cfg : Config) (a b : String) (q : QSORecord)
    (rest : List QSORecord) (i : Nat) (exp : String) (alt cs lv : Nat) :
    traceGo cfg a b (q :: rest) i exp alt cs lv =
      if q.tx_county ≠ a ∧ q.tx_county ≠ b then
        (lv, alt)
      else if q.tx_county = exp then
        traceGo cfg a b rest (i + 1) (if exp = a then b else a) (alt + 1) 0 i
      else if cs + 1 > cfg.max_consecutive_same then
        (i - (cs + 1), alt)
      else
        traceGo cfg a b rest (i + 1) exp alt (cs + 1) i := rfl

/-- Consuming a fully matching prefix: `n + 1` records that each carry the
currently expected county advance the state by `n + 1` positions and
alternations, reset the noise counter, and leave `last_valid_idx` at the last
consumed position. -/
lemma traceGo_expRun (cfg : Config) (a b : String) :
    ∀ (n : Nat) (e : String) (i alt lv : Nat) (rest : List QSORecord),
      e = a ∨ e = b →
      traceGo cfg a b (recsOf (expRun a b e (n + 1)) ++ rest) i e alt 0 lv =
        traceGo cfg a b rest (i + (n + 1)) (expAfter a b e (n + 1))
          (alt + (n + 1)) 0 (i + n) := by
  intro n
  induction n with
  | zero =>
    intro e i alt lv rest he
    have hsplit : recsOf (expRun a b e (0 + 1)) ++ rest =
        (⟨0, e⟩ : QSORecord) :: rest := rfl
    rw [hsplit, traceGo_cons]
    dsimp only
    rw [if_neg (pair_not_off a b e he), if_pos rfl]
    rfl
  | succ n ih =>
    intro e i alt lv rest he
    have hsplit : recsOf (expRun a b e (n + 1 + 1)) ++ rest =
        (⟨0, e⟩ : QSORecord) ::
          (recsOf (expRun a b (flipAB a b e) (n + 1)) ++ rest) := rfl
    rw [hsplit, traceGo_cons]
    dsimp only
    rw [if_neg (pair_not_off a b e he), if_pos rfl]
    rw [show (if e = a then b else a) = flipAB a b e from rfl]
    rw [ih (flipAB a b e) (i + 1) (alt + 1) i rest (flipAB_mem a b e)]
    rw [show expAfter a b e (n + 1 + 1) =
          expAfter a b (flipAB a b e) (n + 1) from rfl]
    rw [show i + 1 + (n + 1) = i + (n + 1 + 1) by omega,
      show alt + 1 + (n + 1) = alt + (n + 1 + 1) by omega,
      show i + 1 + n = i + (n + 1) by omega]

/-- A run of same-pair noise that exceeds the tolerance: the loop breaks at
the record where `consecutive_same` passes the bound and rewinds
`last_valid_idx` to just before the noise run began, regardless of what
follows. -/
lemma traceGo_noise_overflow (cfg : Config) (a b p : String)
    (hp : p = a ∨ p = b) :
    ∀ (k cs i : Nat) (exp : String) (alt lv : Nat) (tail : List QSORecord),
      p ≠ exp → cs + k = cfg.max_consecutive_same + 1 →
      cs ≤ cfg.max_consecutive_same → cs + 1 ≤ i →
      traceGo cfg a b (recsOf (List.replicate k p) ++ tail) i exp alt cs lv =
        (i - cs - 1, alt) := by
  intro k
  induction k with
  | zero =>
    intro cs i exp alt lv tail hne hsum hcs hi
    exfalso
    omega
  | succ k ih =>
    intro cs i exp alt lv tail hne hsum hcs hi
    have hsplit : recsOf (List.replicate (k + 1) p) ++ tail =
        (⟨0, p⟩ : QSORecord) :: (recsOf (List.replicate k p) ++ tail) := rfl
    rw [hsplit, traceGo_cons]
    dsimp only
    rw [if_neg (pair_not_off a b p hp), if_neg hne]
    by_cases hov : cs + 1 > cfg.max_consecutive_same
    · rw [if_pos hov]
      have harith : i - (cs + 1) = i - cs - 1 := by omega
      rw [harith]
    · rw [if_neg hov]
      rw [ih (cs + 1) (i + 1) exp alt i tail hne (by omega) (by omega)
        (by omega)]
      have harith : i + 1 - (cs + 1) - 1 = i - cs - 1 := by omega
      rw [harith]

/-- A run of same-pair noise within the tolerance: the loop consumes it,
keeping the noise records inside the tentative span (`last_valid_idx`
advances with the run, no rewind). -/
lemma traceGo_noise_keep (cfg : Config) (a b p : String)
    (hp : p = a ∨ p = b) :
    ∀ (k cs i : Nat) (exp : String) (alt : Nat) (tail : List QSORecord),
      p ≠ exp → cs + k ≤ cfg.max_consecutive_same → 1 ≤ i →
      traceGo cfg a b (recsOf (List.replicate k p) ++ tail) i exp alt cs
          (i - 1) =
        traceGo cfg a b tail (i + k) exp alt (cs + k) (i + k - 1) := by
  intro k
  induction k with
  | zero =>
    intro cs i exp alt tail hne hsum hi
    have hsplit : recsOf (List.replicate 0 p) ++ tail = tail := rfl
    rw [hsplit, Nat.add_zero, Nat.add_zero]
  | succ k ih =>
    intro cs i exp alt tail hne hsum hi
    have hsplit : recsOf (List.replicate (k + 1) p) ++ tail =
        (⟨0, p⟩ : QSORecord) :: (recsOf (List.replicate k p) ++ tail) := rfl
    rw [hsplit, traceGo_cons]
    dsimp only
    rw [if_neg (pair_not_off a b p hp), if_neg hne,
      if_neg (show ¬ cs + 1 > cfg.max_consecutive_same by omega)]
    have H := ih (cs + 1) (i + 1) exp alt tail hne (by omega) (by omega)
    rw [show i + 1 - 1 = i by omega] at H
    rw [H, show i + 1 + k = i + (k + 1) by omega,
      show cs + 1 + k = cs + (k + 1) by omega]

/-! Characterisation of the pair finder: it returns the pair taken from the
leftmost A,B,A triple of the scanned window. -/

/-- The county at position `j` of a record list (out-of-range positions read
as the dummy record; the detector only consults in-range positions). -/
def countyAt (l : List QSORecord) (j : Nat) : String :=
  (l.getD j dummyRecord).tx_county

/-- Positions `j, j+1, j+2` form an `A,B,A` triple with `A ≠ B`. -/
def TripleAt (l : List QSORecord) (j : Nat) : Prop :=
  j + 2 < l.length ∧ countyAt l j ≠ countyAt l (j + 1) ∧
    countyAt l (j + 2) = countyAt l j

instance (l : List QSORecord) (j : Nat) : Decidable (TripleAt l j) := by
  unfold TripleAt
  exact inferInstance

lemma TripleAt_cons_succ (q : QSORecord) (t : List QSORecord) (j : Nat) :
    TripleAt (q :: t) (j + 1) ↔ TripleAt t j := by
  constructor
  · rintro ⟨h1, h2, h3⟩
    have h1' : j + 1 + 2 < t.length + 1 := by
      rw [List.length_cons] at h1
      exact h1
    exact ⟨by omega, h2, h3⟩
  · rintro ⟨h1, h2, h3⟩
    refine ⟨?_, h2, h3⟩
    rw [List.length_cons]
    omega

lemma TripleAt_cons3_zero (q0 q1 q2 : QSORecord) (rest : List QSORecord) :
    TripleAt (q0 :: q1 :: q2 :: rest) 0 ↔
      (q0.tx_county ≠ q1.tx_county ∧ q2.tx_county = q0.tx_county) := by
  constructor
  · rintro ⟨_, h2, h3⟩
    exact ⟨h2, h3⟩
  · rintro ⟨h2, h3⟩
    refine ⟨?_, h2, h3⟩
    simp only [List.length_cons]
    omega

/-- One-step unfolding of the pair scan on three or more records. -/
lemma findAlternatingPair_cons3 (q0 q1 q2 : QSORecord)
    (rest : List QSORecord) :
    findAlternatingPair (q0 :: q1 :: q2 :: rest) =
      if q0.tx_county = q1.tx_county then
        findAlternatingPair (q1 :: q2 :: rest)
      else if q2.tx_county = q0.tx_county then
        some (q0.tx_county, q1.tx_county)
      else
        findAlternatingPair (q1 :: q2 :: rest) := rfl

/-- Lifting the first-triple characterisation across a skipped head record
(one that starts no triple). -/
lemma findAlternatingPair_spec_step (q : QSORecord) (t : List QSORecord)
    (hb : ¬ TripleAt (q :: t) 0)
    (h1 : findAlternatingPair t = none ↔ ∀ j, ¬ TripleAt t j)
    (h2 : ∀ a b, findAlternatingPair t = some (a, b) →
      ∃ j, TripleAt t j ∧ a = countyAt t j ∧ b = countyAt t (j + 1) ∧
        ∀ j', j' < j → ¬ TripleAt t j')
    (heq : findAlternatingPair (q :: t) = findAlternatingPair t) :
    (findAlternatingPair (q :: t) = none ↔ ∀ j, ¬ TripleAt (q :: t) j) ∧
      (∀ a b, findAlternatingPair (q :: t) = some (a, b) →
        ∃ j, TripleAt (q :: t) j ∧ a = countyAt (q :: t) j ∧
          b = countyAt (q :: t) (j + 1) ∧
          ∀ j', j' < j → ¬ TripleAt (q :: t) j') := by
  constructor
  · rw [heq, h1]
    constructor
    · intro hall j
      cases j with
      | zero => exact hb
      | succ j => exact fun ht => hall j ((TripleAt_cons_succ q t j).mp ht)
    · intro hall j
      exact fun ht => hall (j + 1) ((TripleAt_cons_succ q t j).mpr ht)
  · intro a b hfap
    rw [heq] at hfap
    obtain ⟨j, hT, ha, hbb, hmin⟩ := h2 a b hfap
    refine ⟨j + 1, (TripleAt_cons_succ q t j).mpr hT, ha, hbb, ?_⟩
    intro j' hj'
    cases j' with
    | zero => exact hb
    | succ k =>
      exact fun ht => hmin k (by omega) ((TripleAt_cons_succ q t k).mp ht)

/-- The pair finder's contract: `none` exactly when no `A,B,A` triple exists
in the scanned list, and a returned pair is read off the leftmost triple. -/
lemma findAlternatingPair_spec :
    ∀ (l : List QSORecord),
      (findAlternatingPair l = none ↔ ∀ j, ¬ TripleAt l j) ∧
        (∀ a b, findAlternatingPair l = some (a, b) →
          ∃ j, TripleAt l j ∧ a = countyAt l j ∧ b = countyAt l (j + 1) ∧
            ∀ j', j' < j → ¬ TripleAt l j') := by
  intro l
  induction l with
  | nil =>
    refine ⟨⟨fun _ j hj => ?_, fun _ => rfl⟩,
      fun a b h => Option.noConfusion h⟩
    have := hj.1
    simp only [List.length_nil] at this
    omega
  | cons q t ih =>
    rcases t with _ | ⟨x, t1⟩
    · refine ⟨⟨fun _ j hj => ?_, fun _ => rfl⟩,
        fun a b h => Option.noConfusion h⟩
      have := hj.1
      simp only [List.length_cons, List.length_nil] at this
      omega
    rcases t1 with _ | ⟨y, t'⟩
    · refine ⟨⟨fun _ j hj => ?_, fun _ => rfl⟩,
        fun a b h => Option.noConfusion h⟩
      have := hj.1
      simp only [List.length_cons, List.length_nil] at this
      omega
    by_cases h01 : q.tx_county = x.tx_county
    · have heq : findAlternatingPair (q :: x :: y :: t') =
          findAlternatingPair (x :: y :: t') := by
        rw [findAlternatingPair_cons3, if_pos h01]
      have hb : ¬ TripleAt (q :: x :: y :: t') 0 := fun ht =>
        ((TripleAt_cons3_zero q x y t').mp ht).1 h01
      exact findAlternatingPair_spec_step q (x :: y :: t') hb ih.1 ih.2 heq
    · by_cases h20 : y.tx_county = q.tx_county
      · have hfap : findAlternatingPair (q :: x :: y :: t') =
            some (q.tx_county, x.tx_county) := by
          rw [findAlternatingPair_cons3, if_neg h01, if_pos h20]
        constructor
        · rw [hfap]
          constructor
          · intro h
            exact Option.noConfusion h
          · intro hall
            exact absurd ((TripleAt_cons3_zero q x y t').mpr ⟨h01, h20⟩)
              (hall 0)
        · intro a b h
          rw [hfap] at h
          have hpair := Option.some.inj h
          rw [Prod.mk.injEq] at hpair
          obtain ⟨ha, hb2⟩ := hpair
          refine ⟨0, (TripleAt_cons3_zero q x y t').mpr ⟨h01, h20⟩,
            ha.symm, hb2.symm, ?_⟩
          intro j' hj'
          exact absurd hj' (Nat.not_lt_zero j')
      · have heq : findAlternatingPair (q :: x :: y :: t') =
            findAlternatingPair (x :: y :: t') := by
          rw [findAlternatingPair_cons3, if_neg h01, if_neg h20]
        have hb : ¬ TripleAt (q :: x :: y :: t') 0 := fun ht =>
          h20 ((TripleAt_cons3_zero q x y t').mp ht).2
        exact findAlternatingPair_spec_step q (x :: y :: t') hb ih.1 ih.2 heq

/-- Fewer than three records can hold no triple: the scan returns `none`. -/
lemma findAlternatingPair_short (l : List QSORecord) (h : l.length < 3) :
    findAlternatingPair l = none := by
  rcases l with _ | ⟨a, _ | ⟨b, _ | ⟨c, t⟩⟩⟩
  · rfl
  · rfl
  · rfl
  · exfalso
    simp only [List.length_cons] at h
    omega

/-! County-level refinement: the detector never reads a timestamp while
scanning or tracing, so its output — up to the timestamps copied into
`start_time`/`end_time` — is a function of the `tx_county` sequence alone.
The `...C` definitions below replay the algorithm on the bare county
sequence; the `..._eq_c` lemmas show the record-level functions factor
through them. -/

/-- Pair scan on the bare county sequence. -/
def findAlternatingPairC : List String → Option (String × String)
  | a :: b :: c :: rest =>
    if a = b then
      findAlternatingPairC (b :: c :: rest)
    else if c = a then
      some (a, b)
    else
      findAlternatingPairC (b :: c :: rest)
  | _ => none

/-- Trace loop on the bare county sequence. -/
def traceGoC (cfg : Config) (county_a county_b : String) :
    List String → Nat → String → Nat → Nat → Nat → Nat × Nat
  | [], _, _, alternations, _, last_valid_idx => (last_valid_idx, alternations)
  | c :: rest, i, expected, alternations, consecutive_same, last_valid_idx =>
    if c ≠ county_a ∧ c ≠ county_b then
      (last_valid_idx, alternations)
    else if c = expected then
      traceGoC cfg county_a county_b rest (i + 1)
        (if expected = county_a then county_b else county_a)
        (alternations + 1) 0 i
    else if consecutive_same + 1 > cfg.max_consecutive_same then
      (i - (consecutive_same + 1), alternations)
    else
      traceGoC cfg county_a county_b rest (i + 1) expected alternations
        (consecutive_same + 1) i

/-- Pattern trace on the bare county sequence. -/
def tracePatternC (cfg : Config) (counties : List String) (start_idx : Nat)
    (county_a county_b : String) : Nat × Nat :=
  if counties.getD start_idx "" ≠ county_a ∧
      counties.getD start_idx "" ≠ county_b then
    (start_idx, 0)
  else
    traceGoC cfg county_a county_b (counties.drop start_idx) start_idx
      (counties.getD start_idx "") 0 0 start_idx

/-- The timestamp-free content of an emitted period:
`(start_idx, end_idx, county_a, county_b, qso_count, alternations)`. -/
def strip (p : CountyLinePeriod) : Nat × Nat × String × String × Nat × Nat :=
  (p.start_idx, p.end_idx, p.county_a, p.county_b, p.qso_count,
    p.alternations)

/-- Period probe on the bare county sequence, producing the stripped tuple. -/
def detectPeriodFromC (cfg : Config) (counties : List String)
    (start_idx : Nat) : Option (Nat × Nat × String × String × Nat × Nat) :=
  if start_idx + cfg.min_alternations ≥ counties.length then
    none
  else
    match findAlternatingPairC
        ((counties.take (min (start_idx + 10) counties.length)).drop
          start_idx) with
    | none => none
    | some (county_a, county_b) =>
      if (tracePatternC cfg counties start_idx county_a county_b).2 ≥
          cfg.min_alternations then
        some (start_idx,
          (tracePatternC cfg counties start_idx county_a county_b).1,
          county_a, county_b,
          (tracePatternC cfg counties start_idx county_a county_b).1 -
            start_idx + 1,
          (tracePatternC cfg counties start_idx county_a county_b).2)
      else
        none

/-- Driving loop on the bare county sequence. -/
def findFromFuelC (cfg : Config) (counties : List String) :
    Nat → Nat → List (Nat × Nat × String × String × Nat × Nat)
  | 0, _ => []
  | fuel + 1, i =>
    if i < counties.length - cfg.min_alternations then
      match detectPeriodFromC cfg counties i with
      | some p => p :: findFromFuelC cfg counties fuel (p.2.1 + 1)
      | none => findFromFuelC cfg counties fuel (i + 1)
    else
      []

/-- Full detection on the bare county sequence. -/
def find_county_line_periodsC (cfg : Config) (counties : List String) :
    List (Nat × Nat × String × String × Nat × Nat) :=
  if counties.length < cfg.min_alternations + 1 then []
  else findFromFuelC cfg counties counties.length 0

/-- One-step unfolding of `traceGoC` on a cons cell. -/
lemma traceGoC_cons (cfg : Config) (a b : String) (c : String)
    (rest : List String) (i : Nat) (exp : String) (alt cs lv : Nat) :
    traceGoC cfg a b (c :: rest) i exp alt cs lv =
      if c ≠ a ∧ c ≠ b then
        (lv, alt)
      else if c = exp then
        traceGoC cfg a b rest (i + 1) (if exp = a then b else a) (alt + 1) 0 i
      else if cs + 1 > cfg.max_consecutive_same then
        (i - (cs + 1), alt)
      else
        traceGoC cfg a b rest (i + 1) exp alt (cs + 1) i := rfl

/-- One-step unfolding of `findAlternatingPairC` on three or more items. -/
lemma findAlternatingPairC_cons3 (a b c : String) (rest : List String) :
    findAlternatingPairC (a :: b :: c :: rest) =
      if a = b then
        findAlternatingPairC (b :: c :: rest)
      else if c = a then
        some (a, b)
      else
        findAlternatingPairC (b :: c :: rest) := rfl

lemma findAlternatingPair_eq_c :
    ∀ (l : List QSORecord),
      findAlternatingPair l =
        findAlternatingPairC (l.map (fun q => q.tx_county)) := by
  intro l
  induction l with
  | nil => rfl
  | cons q t ih =>
    rcases t with _ | ⟨x, t1⟩
    · rfl
    rcases t1 with _ | ⟨y, t'⟩
    · rfl
    simp only [List.map_cons] at ih ⊢
    rw [findAlternatingPair_cons3, findAlternatingPairC_cons3]
    by_cases h01 : q.tx_county = x.tx_county
    · rw [if_pos h01, if_pos h01]
      exact ih
    · rw [if_neg h01, if_neg h01]
      by_cases h20 : y.tx_county = q.tx_county
      · rw [if_pos h20, if_pos h20]
      · rw [if_neg h20, if_neg h20]
        exact ih

lemma traceGo_eq_c (cfg : Config) (a b : String) :
    ∀ (l : List QSORecord) (i : Nat) (exp : String) (alt cs lv : Nat),
      traceGo cfg a b l i exp alt cs lv =
        traceGoC cfg a b (l.map (fun q => q.tx_county)) i exp alt cs lv := by
  intro l
  induction l with
  | nil => intro i exp alt cs lv; rfl
  | cons q rest ih =>
    intro i exp alt cs lv
    simp only [List.map_cons]
    rw [traceGo_cons, traceGoC_cons]
    by_cases hc1 : q.tx_county ≠ a ∧ q.tx_county ≠ b
    · rw [if_pos hc1, if_pos hc1]
    · rw [if_neg hc1, if_neg hc1]
      by_cases hc2 : q.tx_county = exp
      · rw [if_pos hc2, if_pos hc2]
        exact ih (i + 1) (if exp = a then b else a) (alt + 1) 0 i
      · rw [if_neg hc2, if_neg hc2]
        by_cases hc3 : cs + 1 > cfg.max_consecutive_same
        · rw [if_pos hc3, if_pos hc3]
        · rw [if_neg hc3, if_neg hc3]
          exact ih (i + 1) exp alt (cs + 1) i

lemma getD_tx (l : List QSORecord) :
    ∀ (n : Nat),
      (l.getD n dummyRecord).tx_county =
        (l.map (fun q => q.tx_county)).getD n "" := by
  induction l with
  | nil => intro n; rfl
  | cons q t ih =>
    intro n
    cases n with
    | zero => rfl
    | succ n => exact ih n

lemma tracePattern_eq_c (cfg : Config) (qsos : List QSORecord) (s : Nat)
    (a b : String) :
    tracePattern cfg qsos s a b =
      tracePatternC cfg (qsos.map (fun q => q.tx_county)) s a b := by
  simp only [tracePattern, tracePatternC]
  rw [← getD_tx, ← List.map_drop, ← traceGo_eq_c]

lemma detectPeriodFrom_eq_c (cfg : Config) (qsos : List QSORecord)
    (s : Nat) :
    Option.map strip (detectPeriodFrom cfg qsos s) =
      detectPeriodFromC cfg (qsos.map (fun q => q.tx_county)) s := by
  simp only [detectPeriodFrom, detectPeriodFromC, List.length_map]
  by_cases hg : s + cfg.min_alternations ≥ qsos.length
  · rw [if_pos hg, if_pos hg]
    rfl
  · rw [if_neg hg, if_neg hg]
    rw [← List.map_take, ← List.map_drop, ← findAlternatingPair_eq_c]
    cases hpair : findAlternatingPair
        ((qsos.take (min (s + 10) qsos.length)).drop s) with
    | none => rfl
    | some pr =>
      obtain ⟨a, b⟩ := pr
      dsimp only
      rw [← tracePattern_eq_c]
      by_cases hthr :
          (tracePattern cfg qsos s a b).2 ≥ cfg.min_alternations
      · rw [if_pos hthr, if_pos hthr]
        rfl
      · rw [if_neg hthr, if_neg hthr]
        rfl

lemma findFromFuel_eq_c (cfg : Config) (qsos : List QSORecord) :
    ∀ (fuel i : Nat),
      (findFromFuel cfg qsos fuel i).map strip =
        findFromFuelC cfg (qsos.map (fun q => q.tx_county)) fuel i := by
  intro fuel
  induction fuel with
  | zero => intro i; rfl
  | succ fuel ih =>
    intro i
    rw [findFromFuel, findFromFuelC, List.length_map]
    by_cases hguard : i < qsos.length - cfg.min_alternations
    · rw [if_pos hguard, if_pos hguard]
      have hdet := detectPeriodFrom_eq_c cfg qsos i
      cases hd : detectPeriodFrom cfg qsos i with
      | none =>
        rw [hd, Option.map_none'] at hdet
        rw [← hdet]
        dsimp only
        exact ih (i + 1)
      | some p =>
        rw [hd, Option.map_some'] at hdet
        rw [← hdet]
        dsimp only
        rw [List.map_cons]
        rw [show (strip p).2.1 = p.end_idx from rfl]
        rw [ih (p.end_idx + 1)]
    · rw [if_neg hguard, if_neg hguard]
      rfl

lemma find_county_line_periods_eq_c (cfg : Config) (qsos : List QSORecord) :
    (find_county_line_periods cfg qsos).map strip =
      find_county_line_periodsC cfg (qsos.map (fun q => q.tx_county)) := by
  rw [find_county_line_periods, find_county_line_periodsC, List.length_map]
  by_cases hlen : qsos.length < cfg.min_alternations + 1
  · rw [if_pos hlen, if_pos hlen]
    rfl
  · rw [if_neg hlen, if_neg hlen]
    exact findFromFuel_eq_c cfg qsos qsos.length 0

/-- Helper for appending under `recsOf`. -/
lemma recsOf_append (xs ys : List String) :
    recsOf (xs ++ ys) = recsOf xs ++ recsOf ys :=
  List.map_append _ _ _

/-- Rewind behaviour: a clean alternating prefix of `n + 1` records followed
by a same-pair noise run of length `max_consecutive_same + 1` (and anything
after it) traces to `(n, n + 1)` — the entire noisy tail is discarded and
`last_valid_idx` rewinds to the last matched position. -/
lemma tracePattern_rewind (cfg : Config) (a b : String) (hab : a ≠ b)
    (n : Nat) (tailC : List String) :
    tracePattern cfg
        (recsOf (expRun a b a (n + 1) ++
          List.replicate (cfg.max_consecutive_same + 1) (expAfter a b a n) ++
          tailC)) 0 a b = (n, n + 1) := by
  have hPmem : expAfter a b a n = a ∨ expAfter a b a n = b :=
    expAfter_mem a b n a (Or.inl rfl)
  have hne : expAfter a b a n ≠ expAfter a b a (n + 1) := by
    rw [expAfter_succ a b n a]
    exact (flipAB_ne a b (expAfter a b a n) hab hPmem).symm
  simp only [tracePattern]
  rw [List.append_assoc]
  have hhead : ((recsOf (expRun a b a (n + 1) ++
      (List.replicate (cfg.max_consecutive_same + 1) (expAfter a b a n) ++
        tailC))).getD 0 dummyRecord).tx_county = a := rfl
  rw [if_neg (pair_not_off a b _ (Or.inl hhead)), hhead, List.drop_zero,
    recsOf_append]
  rw [traceGo_expRun cfg a b n a 0 0 0 _ (Or.inl rfl)]
  rw [Nat.zero_add, Nat.zero_add, recsOf_append]
  rw [traceGo_noise_overflow cfg a b (expAfter a b a n) hPmem
    (cfg.max_consecutive_same + 1) 0 (n + 1) (expAfter a b a (n + 1))
    (n + 1) n (recsOf tailC) hne (by omega) (by omega) (by omega)]
  rw [show n + 1 - 0 - 1 = n by omega]

/-- Clean-break behaviour: a clean alternating prefix of `n + 1` records, a
tolerated same-pair noise run of length `k ≤ max_consecutive_same`, then an
off-pair record traces to `(n + k, n + 1)` — the trace ends at the current
last valid index, keeping the noise records, with no rewind. -/
lemma tracePattern_cleanbreak (cfg : Config) (a b c : String) (hab : a ≠ b)
    (hca : c ≠ a) (hcb : c ≠ b) (n k : Nat)
    (hk : k ≤ cfg.max_consecutive_same) (tailC : List String) :
    tracePattern cfg
        (recsOf (expRun a b a (n + 1) ++
          List.replicate k (expAfter a b a n) ++ c :: tailC)) 0 a b =
      (n + k, n + 1) := by
  have hPmem : expAfter a b a n = a ∨ expAfter a b a n = b :=
    expAfter_mem a b n a (Or.inl rfl)
  have hne : expAfter a b a n ≠ expAfter a b a (n + 1) := by
    rw [expAfter_succ a b n a]
    exact (flipAB_ne a b (expAfter a b a n) hab hPmem).symm
  simp only [tracePattern]
  rw [List.append_assoc]
  have hhead : ((recsOf (expRun a b a (n + 1) ++
      (List.replicate k (expAfter a b a n) ++
        c :: tailC))).getD 0 dummyRecord).tx_county = a := rfl
  rw [if_neg (pair_not_off a b _ (Or.inl hhead)), hhead, List.drop_zero,
    recsOf_append]
  rw [traceGo_expRun cfg a b n a 0 0 0 _ (Or.inl rfl)]
  rw [Nat.zero_add, Nat.zero_add, recsOf_append]
  have H := traceGo_noise_keep cfg a b (expAfter a b a n) hPmem k 0 (n + 1)
    (expAfter a b a (n + 1)) (n + 1) (recsOf (c :: tailC)) hne (by omega)
    (by omega)
  rw [show n + 1 - 1 = n by omega] at H
  rw [H]
  have hsplit : recsOf (c :: tailC) = (⟨0, c⟩ : QSORecord) :: recsOf tailC :=
    rfl
  rw [hsplit, traceGo_cons]
  dsimp only
  rw [if_pos ⟨hca, hcb⟩]
  rw [show n + 1 + k - 1 = n + k by omega]

/-! Claim theorems.  Each claim of the specification review is settled by one
theorem below (with a counterexample theorem where the claim as stated fails
on the code, and a witness instantiating every theorem that carries
hypotheses). -/

/-- C1 (counterexample): on the Scenario 1 input `[A,B,A,B,A]` under the
default configuration the single emitted period has `alternations = 5`, not 4
as the claim states — the trace loop counts the seed record at `start_idx` as
an alternation, so a perfect run of 5 records yields 5, one per matched
record. -/
theorem c1_scenario1_counterexample :
    (find_county_line_periods defaultConfig ex1).map
        (fun p => p.alternations) = [5] ∧ ¬ (5 : Nat) = 4 := by
  constructor
  · decide
  · decide

/-- C1 (amended): on `[A,B,A,B,A]` under the default configuration the
detector returns exactly one period with counties `(A, B)`, spanning indices
0–4, `qso_count = 5` and `alternations = 5` (the seed record counts). -/
theorem c1_scenario1_amended :
    find_county_line_periods defaultConfig ex1 =
      [{ start_time := 1, end_time := 5, county_a := "A", county_b := "B",
         start_idx := 0, end_idx := 4, qso_count := 5,
         alternations := 5 }] := by
  decide

/-- C2 (counterexample): on `[A,B,A,B,A]` the emitted period has
`qso_count = 5 = alternations`, refuting `qso_count ≥ alternations + 1`. -/
theorem c2_qso_count_counterexample :
    (find_county_line_periods defaultConfig ex1).map
        (fun p => (p.qso_count, p.alternations)) = [(5, 5)] ∧
      ¬ (5 : Nat) ≥ 5 + 1 := by
  constructor
  · decide
  · decide

/-- C2 (amended): every emitted period satisfies
`qso_count = end_idx - start_idx + 1` and `qso_count ≥ alternations` (with
equality reached on perfect alternation, so the claimed
`qso_count ≥ alternations + 1` fails). -/
theorem c2_qso_count_amended (cfg : Config) (qsos : List QSORecord)
    (p : CountyLinePeriod) (hp : p ∈ find_county_line_periods cfg qsos) :
    p.qso_count = p.end_idx - p.start_idx + 1 ∧
      p.alternations ≤ p.qso_count := by
  rw [find_county_line_periods] at hp
  by_cases hlen : qsos.length < cfg.min_alternations + 1
  · rw [if_pos hlen] at hp
    exact absurd hp (List.not_mem_nil p)
  · rw [if_neg hlen] at hp
    obtain ⟨s, _, hdet⟩ := findFromFuel_mem cfg qsos qsos.length 0 p hp
    obtain ⟨hs, _, _, hq, hle, _, _⟩ := detectPeriodFrom_spec cfg qsos s p hdet
    exact ⟨hs ▸ hq, hle⟩

/-- C2 (witness): the amended invariant evaluated on the Scenario 1 period. -/
theorem c2_qso_count_amended_witness :
    ({ start_time := 1, end_time := 5, county_a := "A", county_b := "B",
       start_idx := 0, end_idx := 4, qso_count := 5,
       alternations := 5 } : CountyLinePeriod).qso_count =
        ({ start_time := 1, end_time := 5, county_a := "A", county_b := "B",
           start_idx := 0, end_idx := 4, qso_count := 5,
           alternations := 5 } : CountyLinePeriod).end_idx -
          ({ start_time := 1, end_time := 5, county_a := "A",
             county_b := "B", start_idx := 0, end_idx := 4, qso_count := 5,
             alternations := 5 } : CountyLinePeriod).start_idx + 1 ∧
      ({ start_time := 1, end_time := 5, county_a := "A", county_b := "B",
         start_idx := 0, end_idx := 4, qso_count := 5,
         alternations := 5 } : CountyLinePeriod).alternations ≤
        ({ start_time := 1, end_time := 5, county_a := "A", county_b := "B",
           start_idx := 0, end_idx := 4, qso_count := 5,
           alternations := 5 } : CountyLinePeriod).qso_count :=
  c2_qso_count_amended defaultConfig ex1
    { start_time := 1, end_time := 5, county_a := "A", county_b := "B",
      start_idx := 0, end_idx := 4, qso_count := 5, alternations := 5 }
    (by decide)

/-- C3 (counterexample): on the Scenario 2 input `[A,B,A,C,A,B,A]` with the
default configuration the detector does not return the empty list — the
`[A,B,A]` fragment before `C` already counts 3 alternations (the seed record
counts), which meets `min_alternations = 3`, so a period is emitted. -/
theorem c3_scenario2_counterexample :
    find_county_line_periods defaultConfig ex2 ≠ [] := by
  decide

/-- C3 (amended): on `[A,B,A,C,A,B,A]` under the default configuration the
detector returns exactly one period spanning indices 0–2 with counties
`(A, B)`, `qso_count = 3` and `alternations = 3`; the rescan from index 3
fails (the record at the cursor is the off-pair `C`) and the loop then
exits. -/
theorem c3_scenario2_amended :
    find_county_line_periods defaultConfig ex2 =
      [{ start_time := 1, end_time := 3, county_a := "A", county_b := "B",
         start_idx := 0, end_idx := 2, qso_count := 3,
         alternations := 3 }] := by
  decide

/-- C4 (counterexample): on an input whose timestamps are strictly
decreasing, `find_county_line_periods` does not fail — it returns a normal
period list (the code contains no ordering check and no raise path). -/
theorem c4_ordering_counterexample :
    ¬ (ex4.map (fun q => q.timestamp)).Sorted (· ≤ ·) ∧
      find_county_line_periods defaultConfig ex4 =
        [{ start_time := 5, end_time := 1, county_a := "A", county_b := "B",
           start_idx := 0, end_idx := 4, qso_count := 5,
           alternations := 5 }] := by
  constructor
  · decide
  · decide

/-- C4 (amended): the detector performs no timestamp validation and never
raises; its output is determined by the `tx_county` sequence alone — any two
inputs with the same county sequence (whether or not their timestamps are
ordered) produce the same periods up to the timestamps copied into
`start_time`/`end_time`. -/
theorem c4_ordering_amended (cfg : Config) (qsos qsos' : List QSORecord)
    (h : qsos.map (fun q => q.tx_county) =
      qsos'.map (fun q => q.tx_county)) :
    (find_county_line_periods cfg qsos).map strip =
      (find_county_line_periods cfg qsos').map strip := by
  rw [find_county_line_periods_eq_c, find_county_line_periods_eq_c, h]

/-- C4 (witness): the disordered input `ex4` and the ordered input `ex1`
share the county sequence `[A,B,A,B,A]` and produce the same stripped
periods. -/
theorem c4_ordering_amended_witness :
    (find_county_line_periods defaultConfig ex4).map strip =
      (find_county_line_periods defaultConfig ex1).map strip :=
  c4_ordering_amended defaultConfig ex4 ex1 (by decide)

/-- C5 (confirmed): for every input and configuration, the emitted period
list is ordered by `start_idx` and pairwise non-overlapping — every earlier
period ends strictly before every later one starts. -/
theorem c5_sorted_nonoverlapping (cfg : Config) (qsos : List QSORecord) :
    List.Pairwise
      (fun p q => p.start_idx < q.start_idx ∧ p.end_idx < q.start_idx)
      (find_county_line_periods cfg qsos) := by
  rw [find_county_line_periods]
  by_cases hlen : qsos.length < cfg.min_alternations + 1
  · rw [if_pos hlen]
    exact List.Pairwise.nil
  · rw [if_neg hlen]
    exact findFromFuel_pairwise cfg qsos qsos.length 0

/-- C6 (counterexample): `CountyLineDetector` reports the pair in discovery
order, not canonically — on `[B,A,B,A,B]` the emitted period carries
`(county_a, county_b) = ("B", "A")` although `"A" < "B"`. -/
theorem c6_counties_counterexample :
    (find_county_line_periods defaultConfig exB).map
        (fun p => (p.county_a, p.county_b)) = [("B", "A")] ∧
      ("A" : String) < "B" := by
  constructor
  · decide
  · exact String.lt_iff_toList_lt.mpr (by decide)

/-- C6 (amended): the two counties of every emitted period are distinct, and
the generator variant (`county_line_periods.py`) reports them sorted — its
`counties` field is always `[x, y]` with `x < y`; the analyzer variant
(`_county_line_analyzer.py`) keeps discovery order in
`county_a`/`county_b`. -/
theorem c6_counties_amended :
    (∀ (cfg : Config) (qsos : List QSORecord) (p : GenCountyLinePeriod),
        p ∈ gen_find_county_line_periods cfg qsos →
        ∃ x y, x < y ∧ p.counties = [x, y]) ∧
      (∀ (cfg : Config) (qsos : List QSORecord) (p : CountyLinePeriod),
        p ∈ find_county_line_periods cfg qsos →
        p.county_a ≠ p.county_b) := by
  constructor
  · intro cfg qsos p hp
    rw [gen_find_county_line_periods] at hp
    by_cases hlen : qsos.length < cfg.min_alternations + 1
    · rw [if_pos hlen] at hp
      exact absurd hp (List.not_mem_nil p)
    · rw [if_neg hlen] at hp
      obtain ⟨s, _, hdet⟩ := genFindFromFuel_mem cfg qsos qsos.length 0 p hp
      exact (genDetectPeriodFrom_spec cfg qsos s p hdet).2.2.2
  · intro cfg qsos p hp
    rw [find_county_line_periods] at hp
    by_cases hlen : qsos.length < cfg.min_alternations + 1
    · rw [if_pos hlen] at hp
      exact absurd hp (List.not_mem_nil p)
    · rw [if_neg hlen] at hp
      obtain ⟨s, _, hdet⟩ := findFromFuel_mem cfg qsos qsos.length 0 p hp
      exact (detectPeriodFrom_spec cfg qsos s p hdet).2.2.2.2.2.2

/-- C6 (witness): the amended statement evaluated on concrete periods of the
generator and of the analyzer. -/
theorem c6_counties_amended_witness :
    (∃ x y, x < y ∧
        ({ start_time := 1, end_time := 5, counties := ["A", "B"],
           qso_count := 5, alternations := 5, start_idx := 0,
           end_idx := 4 } : GenCountyLinePeriod).counties = [x, y]) ∧
      ({ start_time := 1, end_time := 5, county_a := "B", county_b := "A",
         start_idx := 0, end_idx := 4, qso_count := 5,
         alternations := 5 } : CountyLinePeriod).county_a ≠
        ({ start_time := 1, end_time := 5, county_a := "B", county_b := "A",
           start_idx := 0, end_idx := 4, qso_count := 5,
           alternations := 5 } : CountyLinePeriod).county_b :=
  ⟨c6_counties_amended.1 defaultConfig exB
      { start_time := 1, end_time := 5, counties := ["A", "B"],
        qso_count := 5, alternations := 5, start_idx := 0, end_idx := 4 }
      (by decide),
    c6_counties_amended.2 defaultConfig exB
      { start_time := 1, end_time := 5, county_a := "B", county_b := "A",
        start_idx := 0, end_idx := 4, qso_count := 5, alternations := 5 }
      (by decide)⟩

/-- C7 (confirmed): trace termination boundaries.  After a clean alternating
prefix, a same-pair noise run longer than `max_consecutive_same` terminates
the trace with `last_valid_idx` rewound to just before the run began (the
whole noisy tail, and anything after it, is discarded: first conjunct ends at
index `n` regardless of the tail), whereas an off-pair record terminates the
trace at the current last valid index with no rewind (second conjunct keeps
the `k` tolerated noise records: it ends at `n + k`). -/
theorem c7_noise_boundary (cfg : Config) (a b c : String) (n k : Nat)
    (tailC : List String) (hab : a ≠ b) (hca : c ≠ a) (hcb : c ≠ b)
    (hk : k ≤ cfg.max_consecutive_same) :
    tracePattern cfg
        (recsOf (expRun a b a (n + 1) ++
          List.replicate (cfg.max_consecutive_same + 1) (expAfter a b a n) ++
          tailC)) 0 a b = (n, n + 1) ∧
      tracePattern cfg
          (recsOf (expRun a b a (n + 1) ++
            List.replicate k (expAfter a b a n) ++ c :: tailC)) 0 a b =
        (n + k, n + 1) :=
  ⟨tracePattern_rewind cfg a b hab n tailC,
    tracePattern_cleanbreak cfg a b c hab hca hcb n k hk tailC⟩

/-- C7 (witness): the boundary behaviour on the concrete prefix `[A,B]` with
noise county `B`: three noise records rewind to index 1, one tolerated noise
record followed by `C` breaks cleanly at index 2. -/
theorem c7_noise_boundary_witness :
    tracePattern defaultConfig
        (recsOf (expRun "A" "B" "A" 2 ++
          List.replicate (defaultConfig.max_consecutive_same + 1)
            (expAfter "A" "B" "A" 1) ++ ["B"])) 0 "A" "B" = (1, 2) ∧
      tracePattern defaultConfig
          (recsOf (expRun "A" "B" "A" 2 ++
            List.replicate 1 (expAfter "A" "B" "A" 1) ++
            "C" :: ["B"])) 0 "A" "B" = (2, 2) :=
  c7_noise_boundary defaultConfig "A" "B" "C" 1 1 ["B"] (by decide)
    (by decide) (by decide) (by decide)

/-- C8 (confirmed): the pair-finder contract.  The scanned window holds at
most 10 records; a window shorter than 3 records yields no pair; `none` is
returned exactly when the window holds no `A,B,A` triple with `A ≠ B`; and a
returned pair is read off the leftmost such triple. -/
theorem c8_pairfinder_contract :
    (∀ (qsos : List QSORecord) (s : Nat),
        ((qsos.take (min (s + 10) qsos.length)).drop s).length ≤ 10) ∧
      (∀ (w : List QSORecord), w.length < 3 →
        findAlternatingPair w = none) ∧
      (∀ (w : List QSORecord),
        findAlternatingPair w = none ↔ ∀ j, ¬ TripleAt w j) ∧
      (∀ (w : List QSORecord) (a b : String),
        findAlternatingPair w = some (a, b) →
        ∃ j, TripleAt w j ∧ a = countyAt w j ∧ b = countyAt w (j + 1) ∧
          ∀ j', j' < j → ¬ TripleAt w j') := by
  refine ⟨?_, findAlternatingPair_short,
    fun w => (findAlternatingPair_spec w).1,
    fun w => (findAlternatingPair_spec w).2⟩
  intro qsos s
  rw [List.length_drop, List.length_take]
  omega

/-- C8 (witness): the contract evaluated on concrete windows — a two-record
window yields no pair, and on `[A,B,A,C,A,B,A]` the returned pair `(A, B)`
comes from the triple at the leftmost position 0. -/
theorem c8_pairfinder_contract_witness :
    findAlternatingPair [(⟨1, "A"⟩ : QSORecord), ⟨2, "B"⟩] = none ∧
      ∃ j, TripleAt ex2 j ∧ "A" = countyAt ex2 j ∧
        "B" = countyAt ex2 (j + 1) ∧ ∀ j', j' < j → ¬ TripleAt ex2 j' :=
  ⟨c8_pairfinder_contract.2.1 [⟨1, "A"⟩, ⟨2, "B"⟩] (by decide),
    c8_pairfinder_contract.2.2.2 ex2 "A" "B" (by decide)⟩

/-- C9 (counterexample): global monotonicity in the noise tolerance fails.
On the county sequence `[A,B,A,A,A,C,A]` with `min_alternations = 3`, the
run with `max_consecutive_same = 1` emits periods spanning `[0,2]` and
`[3,6]`, while the run with the looser tolerance 2 emits only `[0,4]`: the
tighter run's period `[3,6]` is covered by no period of the looser run, so
increasing the tolerance shortened the detected coverage. -/
theorem c9_monotonicity_counterexample :
    ¬ (∀ p ∈ find_county_line_periods ⟨3, 1⟩ ex9,
        ∃ q ∈ find_county_line_periods ⟨3, 2⟩ ex9,
          q.start_idx ≤ p.start_idx ∧ p.end_idx ≤ q.end_idx) := by
  decide

/-- C9 (amended): monotonicity holds trace-locally, not globally.  For the
same records, start index and candidate pair, a larger
`max_consecutive_same` never yields an earlier last valid index or a smaller
alternation count; but the emitted period list as a whole is not monotone,
because an extended early trace moves the cursor past records in which the
tighter run found a separate period. -/
theorem c9_monotonicity_amended (cfg₁ cfg₂ : Config)
    (hmax : cfg₁.max_consecutive_same ≤ cfg₂.max_consecutive_same)
    (qsos : List QSORecord) (s : Nat) (a b : String) :
    (tracePattern cfg₁ qsos s a b).1 ≤ (tracePattern cfg₂ qsos s a b).1 ∧
      (tracePattern cfg₁ qsos s a b).2 ≤ (tracePattern cfg₂ qsos s a b).2 :=
  tracePattern_mono cfg₁ cfg₂ hmax qsos s a b

/-- C9 (witness): trace-local monotonicity evaluated on the counterexample
input at the first probe. -/
theorem c9_monotonicity_amended_witness :
    (tracePattern ⟨3, 1⟩ ex9 0 "A" "B").1 ≤
        (tracePattern ⟨3, 2⟩ ex9 0 "A" "B").1 ∧
      (tracePattern ⟨3, 1⟩ ex9 0 "A" "B").2 ≤
        (tracePattern ⟨3, 2⟩ ex9 0 "A" "B").2 :=
  c9_monotonicity_amended ⟨3, 1⟩ ⟨3, 2⟩ (by decide) ex9 0 "A" "B"

/-- C10 (confirmed): termination of the driving loop.  When the record at
the start index is a pair member, the trace returns a last valid index in
`[start_idx, qsos.length)` (the rewind never falls before `start_idx`
because the first record always matches `expected`); every emitted period
starts at its probe cursor and ends at an in-bounds index no earlier than
it; and the loop reaches its fixpoint within `qsos.length` iterations — any
fuel of at least `qsos.length` yields the same list, so the source's
unbounded `while` loop terminates on every finite input. -/
theorem c10_cursor_termination :
    (∀ (cfg : Config) (qsos : List QSORecord) (s : Nat) (a b : String),
        s < qsos.length →
        ((qsos.getD s dummyRecord).tx_county = a ∨
          (qsos.getD s dummyRecord).tx_county = b) →
        s ≤ (tracePattern cfg qsos s a b).1 ∧
          (tracePattern cfg qsos s a b).1 < qsos.length) ∧
      (∀ (cfg : Config) (qsos : List QSORecord) (s : Nat)
          (p : CountyLinePeriod),
        detectPeriodFrom cfg qsos s = some p →
        p.start_idx = s ∧ s ≤ p.end_idx ∧ p.end_idx < qsos.length) ∧
      (∀ (cfg : Config) (qsos : List QSORecord) (fuel : Nat),
        qsos.length ≤ fuel →
        findFromFuel cfg qsos fuel 0 =
          findFromFuel cfg qsos qsos.length 0) := by
  refine ⟨?_, ?_, ?_⟩
  · intro cfg qsos s a b hs _
    obtain ⟨h1, h2, _⟩ := tracePattern_bounds cfg qsos s a b hs
    exact ⟨h1, h2⟩
  · intro cfg qsos s p hdet
    obtain ⟨h1, h2, h3, _⟩ := detectPeriodFrom_spec cfg qsos s p hdet
    exact ⟨h1, h2, h3⟩
  · intro cfg qsos fuel hfuel
    rw [show fuel = qsos.length + (fuel - qsos.length) by omega]
    exact findFromFuel_fuel_stable cfg qsos (fuel - qsos.length)
      qsos.length 0 (by omega)

/-- C10 (witness): the bounds evaluated on the Scenario 1 input. -/
theorem c10_cursor_termination_witness :
    (0 ≤ (tracePattern defaultConfig ex1 0 "A" "B").1 ∧
        (tracePattern defaultConfig ex1 0 "A" "B").1 < ex1.length) ∧
      findFromFuel defaultConfig ex1 7 0 =
        findFromFuel defaultConfig ex1 ex1.length 0 :=
  ⟨c10_cursor_termination.1 defaultConfig ex1 0 "A" "B" (by decide)
      (Or.inl (by decide)),
    c10_cursor_termination.2.2 defaultConfig ex1 7 (by decide)⟩

end QsoParty
